import Mathlib

/-!
Verification of the EazyCore plugin orchestration engine.

The definitions below are a shallow embedding of `packages/eazycore/src/index.ts`
and `packages/eazycore/src/rpc.ts`: JS `Map`s become insertion-ordered
association lists, JS exceptions become `Except`/`Option String` results, and
the external schema validator (Zod) is abstracted as a boolean acceptance
predicate, exactly the capability the engine relies on.
-/

namespace EazyCore

/-- Service values. JS service implementations are objects, which are always
truthy; a `Val` stands for such a (truthy) runtime value. -/
abbrev Val := Nat

/-- A single-quote character, used to reproduce the engine error strings. -/
def sq : String := (Char.ofNat 39).toString

/-- Execution mode of a plugin instance (`'main' | 'worker'`). -/
inductive Mode where
  | main
  | worker
deriving DecidableEq, Repr

/-- A registered plugin instance (see `PluginInstance` in index.ts). The
wiring object is an insertion-ordered map requirementName → targetInstanceId. -/
structure PluginInstance where
  id : String
  typeId : String
  config : Val
  wiring : List (String × String)
  mode : Mode
deriving DecidableEq, Repr

/-- `this.instances.get(i)` over the insertion-ordered instance map. -/
def instGet (g : List PluginInstance) (i : String) : Option PluginInstance :=
  g.find? (fun p => p.id == i)

/-- `this.instances.has(i)`. -/
def instHas (g : List PluginInstance) (i : String) : Bool :=
  (instGet g i).isSome

/-- A schema handle: `parse` succeeds iff the predicate accepts the value
(the validator itself is an external collaborator of the engine). -/
abbrev Schema := Val → Bool

/-- A registered plugin type definition (see `PluginTypeDefinition`).
`requirements` is `none` when the field is absent (JS `undefined`). -/
structure TypeDef where
  id : String
  schema : Schema
  requirements : Option (List String)
  entryPoint : Option String
  hasTeardown : Bool

/-- Lookup in the insertion-ordered type map. -/
def tlookup (ts : List (String × TypeDef)) (i : String) : Option TypeDef :=
  (ts.find? (fun p => p.1 == i)).map (·.2)

/-- Lookup in the services map of the `PluginContext`. -/
def slookup (svc : List (String × Val)) (i : String) : Option Val :=
  (svc.find? (fun p => p.1 == i)).map (·.2)

/-- JS object property lookup on a wiring map. -/
def wlookup (w : List (String × String)) (k : String) : Option String :=
  (w.find? (fun p => p.1 == k)).map (·.2)

/-! ## The graph resolver (`resolveExecutionOrder`) -/

/-- The mutable state of the DFS: the `visited` set, the `visiting` set and
the `sorted` output array. -/
structure DfsState where
  visited : List String
  visiting : List String
  sorted : List String
deriving DecidableEq, Repr

/-- `Array.prototype.join(' -> ')`. -/
def joinArrow : List String → String
  | [] => ""
  | [a] => a
  | a :: b :: r => a ++ " -> " ++ joinArrow (b :: r)

/-- The cyclic-dependency diagnostic built at a back edge:
`` `Cyclic dependency: ${ancestors.join(' -> ')} -> ${nodeId}` ``. -/
def cyclicMsg (ancestors : List String) (nodeId : String) : String :=
  "Cyclic dependency: " ++ joinArrow ancestors ++ " -> " ++ nodeId

mutual

/-- One `visit(nodeId, ancestors)` call of `resolveExecutionOrder`. The JS
recursion terminates because the `visiting` stack is bounded by the number of
registered instances; `fuel` bounds the recursion depth and the fuel branch is
proved unreachable for the fuel used by `resolveExecutionOrder`. -/
def visit (g : List PluginInstance) : Nat → String → List String → DfsState →
    Except String DfsState
  | 0, _, _, _ => .error "fuel exhausted"
  | fuel + 1, nodeId, ancestors, st =>
    if nodeId ∈ st.visited then .ok st
    else if nodeId ∈ st.visiting then .error (cyclicMsg ancestors nodeId)
    else
      let deps : List String :=
        match instGet g nodeId with
        | some inst => inst.wiring.map Prod.snd
        | none => []
      match visitList g fuel deps (ancestors ++ [nodeId])
          { st with visiting := nodeId :: st.visiting } with
      | .error e => .error e
      | .ok st2 =>
        .ok { visited := nodeId :: st2.visited,
              visiting := st2.visiting.erase nodeId,
              sorted := st2.sorted ++ [nodeId] }
termination_by fuel _ _ _ => (fuel, 0)

/-- The loop over the wiring targets inside `visit`; only targets that are
registered instances are recursed into. -/
def visitList (g : List PluginInstance) : Nat → List String → List String →
    DfsState → Except String DfsState
  | _, [], _, st => .ok st
  | fuel, d :: ds, ancestors, st =>
    if instHas g d then
      match visit g fuel d ancestors st with
      | .error e => .error e
      | .ok st1 => visitList g fuel ds ancestors st1
    else visitList g fuel ds ancestors st
termination_by fuel ds _ _ => (fuel, ds.length + 1)

end

/-- The loop `for (const id of this.instances.keys()) visit(id, [])`. -/
def visitAll (g : List PluginInstance) (fuel : Nat) :
    List String → DfsState → Except String DfsState
  | [], st => .ok st
  | i :: rest, st =>
    match visit g fuel i [] st with
    | .error e => .error e
    | .ok st1 => visitAll g fuel rest st1

/-- `resolveExecutionOrder`: topological sort by three-colour DFS post-order.
Returns the start order, or the cyclic-dependency diagnostic. -/
def resolveExecutionOrder (g : List PluginInstance) : Except String (List String) :=
  match visitAll g (g.length + 1) (g.map (·.id)) ⟨[], [], []⟩ with
  | .error e => .error e
  | .ok st => .ok st.sorted

/-- The intra-graph dependency edge: `a` is a registered instance one of whose
wiring targets is `b`, and `b` is itself a registered instance. -/
def edgeb (g : List PluginInstance) (a b : String) : Bool :=
  match instGet g a with
  | some p => (p.wiring.map Prod.snd).contains b && instHas g b
  | none => false

/-- Propositional form of `edgeb`. -/
def edge (g : List PluginInstance) (a b : String) : Prop := edgeb g a b = true

instance (g : List PluginInstance) (a b : String) : Decidable (edge g a b) := by
  unfold edge; infer_instance

/-- The intra-graph wiring is acyclic. -/
def Acyclic (g : List PluginInstance) : Prop :=
  ∀ a, ¬ Relation.TransGen (edge g) a a

/-- The shape of every error produced by the resolver: the diagnostic built
from an ancestor chain that the repeated node closes into a genuine cycle. -/
def IsCycleErr (g : List PluginInstance) (msg : String) : Prop :=
  ∃ anc n, msg = cyclicMsg anc n ∧ n ∈ anc ∧ List.Chain' (edge g) (anc ++ [n])

/-! ## Invariants of the DFS (proof-only definitions) -/

/-- The set of registered instance ids, as a finite set (used to bound the
recursion depth of the DFS). -/
def regFin (g : List PluginInstance) : Finset String := (g.map (·.id)).toFinset

/-- Invariant maintained by the DFS state across successful `visit` calls. -/
structure Inv (g : List PluginInstance) (st : DfsState) : Prop where
  disj : ∀ x ∈ st.visiting, x ∉ st.visited
  visited_eq : ∀ x, x ∈ st.visited ↔ x ∈ st.sorted
  nodup_sorted : st.sorted.Nodup
  sorted_reg : ∀ x ∈ st.sorted, instHas g x = true
  topo : ∀ a b, edge g a b → a ∈ st.sorted → [b, a].Sublist st.sorted

/-- Postcondition of a successful `visit` call. -/
abbrev VisitGood (g : List PluginInstance) (st st' : DfsState) (n : String) : Prop :=
  Inv g st' ∧ st'.visiting = st.visiting ∧ (∃ t, st'.sorted = st.sorted ++ t) ∧
    n ∈ st'.visited ∧ ∀ x ∈ st.visited, x ∈ st'.visited

/-- Postcondition of a successful `visitList` call. -/
abbrev ListGood (g : List PluginInstance) (st st' : DfsState) (ds : List String) : Prop :=
  Inv g st' ∧ st'.visiting = st.visiting ∧ (∃ t, st'.sorted = st.sorted ++ t) ∧
    (∀ d ∈ ds, instHas g d = true → d ∈ st'.visited) ∧ ∀ x ∈ st.visited, x ∈ st'.visited

/-! ## `PluginContext` -/

/-- An error thrown by `PluginContext.registerService`. -/
inductive RegErr where
  | duplicate (id : String)
  | contract (id : String)
deriving DecidableEq, Repr

def regErrMsg : RegErr → String
  | .duplicate i => "Service " ++ sq ++ i ++ sq ++ " already registered."
  | .contract i => "Service " ++ sq ++ i ++ sq ++ " failed contract validation"

/-- `PluginContext.registerService(id, schema, impl, validate)`. Returns the
services map after the call, the error thrown if any (the map is only mutated
by the final `set`, after all checks), and whether `schema.parse` was
invoked. -/
def registerService (svc : List (String × Val)) (i : String) (schema : Schema)
    (impl : Val) (validate : Bool) : List (String × Val) × Option RegErr × Bool :=
  if (slookup svc i).isSome then (svc, some (.duplicate i), false)
  else if validate then
    if schema impl then (svc ++ [(i, impl)], none, true)
    else (svc, some (.contract i), true)
  else (svc ++ [(i, impl)], none, false)

/-- The error message of `PluginContext.getService` on a missing id. -/
def getServiceMsg (i : String) : String :=
  "Service " ++ sq ++ i ++ sq ++ " not found."

/-! ## The engine registration API -/

/-- The registration-relevant state of an `EazyCore` engine. -/
structure EngineState where
  pluginTypes : List (String × TypeDef)
  instances : List PluginInstance
  services : List (String × Val)
  workers : List String
  locked : Bool

def registryLockedMsg (i : String) : String :=
  "Registry is locked. Cannot register new plugin type: " ++ sq ++ i ++ sq

/-- `registerDefinition(def)`. -/
def registerDefinition (st : EngineState) (d : TypeDef) : Except String EngineState :=
  if st.locked then .error (registryLockedMsg d.id)
  else if (tlookup st.pluginTypes d.id).isSome then
    .error ("Plugin Type " ++ sq ++ d.id ++ sq ++ " is already registered.")
  else .ok { st with pluginTypes := st.pluginTypes ++ [(d.id, d)] }

/-- `lockDefinitions()`. -/
def lockDefinitions (st : EngineState) : EngineState := { st with locked := true }

/-- `registerPlugin(plugin)`. -/
def registerPlugin (st : EngineState) (p : PluginInstance) : Except String EngineState :=
  if (tlookup st.pluginTypes p.typeId).isNone then
    .error ("Unknown Plugin Type: " ++ sq ++ p.typeId ++ sq ++
      ". Did you forget to register the definition?")
  else if (instGet st.instances p.id).isSome then
    .error ("Plugin Instance ID " ++ sq ++ p.id ++ sq ++ " is already used.")
  else .ok { st with instances := st.instances ++ [p] }

/-- One registration-API operation on an engine. These are the only code paths
that touch the engine's registration state; in particular `definitionsLocked`
is assigned only by `lockDefinitions`. -/
inductive EngineOp where
  | regDef (d : TypeDef)
  | regPlugin (p : PluginInstance)
  | lock

/-- Apply an operation; a thrown error leaves the engine unchanged (every
mutation in the source happens after its error checks). -/
def applyOp (st : EngineState) : EngineOp → EngineState
  | .regDef d => match registerDefinition st d with | .ok st' => st' | .error _ => st
  | .regPlugin p => match registerPlugin st p with | .ok st' => st' | .error _ => st
  | .lock => lockDefinitions st

def applyOps (st : EngineState) : List EngineOp → EngineState
  | [] => st
  | op :: ops => applyOps (applyOp st op) ops

/-! ## The lifecycle engine: `start` and `stop` -/

def wiringMissingMsg (i k : String) : String :=
  "Plugin " ++ sq ++ i ++ sq ++ " missing wiring for " ++ sq ++ k ++ sq

/-- Failure of the external config validator (`type.schema.parse`); the text
of the validator's own error is outside the engine. -/
def configInvalidMsg (i : String) : String := "ConfigInvalid: " ++ i

def missingEntryMsg (tid : String) : String :=
  "Plugin " ++ sq ++ tid ++ sq ++ " missing entryPoint"

/-- The dependency-materialization loop of `start` for a main-mode instance:
`deps[key] = getService(wiring[key])`; absent or empty (falsy) wiring throws
the missing-wiring error, an unknown target throws from `getService`. -/
def resolveDeps (svc : List (String × Val)) (wiring : List (String × String))
    (i : String) : List String → Except String (List (String × Val))
  | [] => .ok []
  | k :: ks =>
    match wlookup wiring k with
    | none => .error (wiringMissingMsg i k)
    | some sid =>
      if sid = "" then .error (wiringMissingMsg i k)
      else
        match slookup svc sid with
        | none => .error (getServiceMsg sid)
        | some v =>
          match resolveDeps svc wiring i ks with
          | .error e => .error e
          | .ok ds => .ok ((k, v) :: ds)

/-- The behaviour of a plugin type's `setup` hook (user code): given the
instance id and the current services map, it may mutate the services map
(via the context), return a value, or throw. `none` as the returned value
stands for a falsy return (`undefined` etc.); every `Val` is truthy. -/
abbrev SetupFun := String → List (String × Val) → Except String (List (String × Val) × Option Val)

/-- Processing of one instance inside the `start` loop. Returns
(thrown error?, services, workers); on an error the mutations already
performed persist, mirroring the exception semantics of the source. -/
def startStep (types : List (String × TypeDef)) (setups : SetupFun)
    (proxyOf : String → Val) (g : List PluginInstance) (i : String)
    (svc : List (String × Val)) (wk : List String) :
    Option String × List (String × Val) × List String :=
  match instGet g i with
  | none => (some "TypeError", svc, wk)
  | some inst =>
    match tlookup types inst.typeId with
    | none => (some "TypeError", svc, wk)
    | some ty =>
      if ty.schema inst.config = false then (some (configInvalidMsg i), svc, wk)
      else
        match (if inst.mode = Mode.main then
                 match ty.requirements with
                 | some reqs => resolveDeps svc inst.wiring i reqs
                 | none => Except.ok []
               else Except.ok []) with
        | .error e => (some e, svc, wk)
        | .ok _ =>
          match inst.mode with
          | .main =>
            match setups i svc with
            | .error e => (some e, svc, wk)
            | .ok (svc1, result) =>
              match result with
              | some v =>
                if (slookup svc1 i).isSome then (none, svc1, wk)
                else
                  match registerService svc1 i ty.schema v true with
                  | (svc2, none, _) => (none, svc2, wk)
                  | (_, some err, _) => (some (regErrMsg err), svc1, wk)
              | none => (none, svc1, wk)
          | .worker =>
            match ty.entryPoint with
            | none => (some (missingEntryMsg ty.id), svc, wk)
            | some _ =>
              match registerService svc i ty.schema (proxyOf i) false with
              | (svc2, none, _) => (none, svc2, wk ++ [i])
              | (_, some err, _) => (some (regErrMsg err), svc, wk ++ [i])

/-- Outcome of a `start` run. `visits` is the sequence of instance ids the
loop reached; `tds` records teardown-hook invocations (the `start` body of the
source contains none, also on the abort path). -/
structure StartRes where
  err : Option String
  services : List (String × Val)
  workers : List String
  visits : List String
  tds : List String
deriving DecidableEq, Repr

def startLoop (types : List (String × TypeDef)) (setups : SetupFun)
    (proxyOf : String → Val) (g : List PluginInstance) :
    List String → List (String × Val) → List String → List String → StartRes
  | [], svc, wk, vis => ⟨none, svc, wk, vis, []⟩
  | i :: rest, svc, wk, vis =>
    match startStep types setups proxyOf g i svc wk with
    | (some e, svc1, wk1) => ⟨some e, svc1, wk1, vis ++ [i], []⟩
    | (none, svc1, wk1) => startLoop types setups proxyOf g rest svc1 wk1 (vis ++ [i])

/-- `start(options)`: resolve the order, then (unless dry-run) run the loop. -/
def start (st : EngineState) (setups : SetupFun) (proxyOf : String → Val)
    (dryRun : Bool) : StartRes :=
  match resolveExecutionOrder st.instances with
  | .error e => ⟨some e, st.services, st.workers, [], []⟩
  | .ok order =>
    if dryRun then ⟨none, st.services, st.workers, [], []⟩
    else startLoop st.pluginTypes setups proxyOf st.instances order st.services st.workers []

/-- Outcome of a `stop` run: uncaught error (if any), remaining workers, the
sequence of instance ids visited, the log lines, and the ids whose teardown
was invoked. -/
structure StopRes where
  err : Option String
  workers : List String
  visits : List String
  logs : List String
  tds : List String
deriving DecidableEq, Repr

def teardownErrLog (i e : String) : String :=
  "   [" ++ i ++ "] Error during teardown: " ++ e

def terminatingLog (i : String) : String := "   [" ++ i ++ "] Terminating Worker..."

/-- One iteration of the `stop` loop. The whole body is wrapped in
try/catch, so a throwing teardown only produces a log line; only the
instance lookup happens before the `try`. Returns
(uncaught error?, workers, new log lines, teardown invocations). -/
def stopStep (types : List (String × TypeDef)) (td : String → Except String Unit)
    (g : List PluginInstance) (i : String) (wk : List String) :
    Option String × List String × List String × List String :=
  match instGet g i with
  | none => (some "TypeError", wk, [], [])
  | some inst =>
    match inst.mode with
    | .main =>
      match tlookup types inst.typeId with
      | none => (none, wk, [teardownErrLog i "TypeError"], [])
      | some ty =>
        if ty.hasTeardown then
          match td i with
          | .ok _ => (none, wk, [], [i])
          | .error e => (none, wk, [teardownErrLog i e], [i])
        else (none, wk, [], [])
    | .worker =>
      if i ∈ wk then (none, wk.erase i, [terminatingLog i], [i])
      else (none, wk, [], [])

def stopLoop (types : List (String × TypeDef)) (td : String → Except String Unit)
    (g : List PluginInstance) :
    List String → List String → List String → List String → List String → StopRes
  | [], wk, vis, logs, tds => ⟨none, wk, vis, logs, tds⟩
  | i :: rest, wk, vis, logs, tds =>
    match stopStep types td g i wk with
    | (some e, wk1, nl, nt) => ⟨some e, wk1, vis ++ [i], logs ++ nl, tds ++ nt⟩
    | (none, wk1, nl, nt) =>
      stopLoop types td g rest wk1 (vis ++ [i]) (logs ++ nl) (tds ++ nt)

/-- `stop(options)`: reverse the resolved order and tear down each instance,
catching per-instance errors. `td` is the outcome of the user teardown hook. -/
def stop (st : EngineState) (td : String → Except String Unit) (dryRun : Bool) : StopRes :=
  match resolveExecutionOrder st.instances with
  | .error e => ⟨some e, st.workers, [], [], []⟩
  | .ok order =>
    if dryRun then ⟨none, st.workers, [], [], []⟩
    else stopLoop st.pluginTypes td st.instances order.reverse st.workers [] [] []

/-! ## The RPC layer (rpc.ts) -/

/-- `DEFAULT_RPC_TIMEOUT_MS`. -/
def DEFAULT_RPC_TIMEOUT_MS : Nat := 10000

/-- A pending-call map entry. `hasTimer`/`timerMs` record whether the call
armed a rejection timer and with which delay (the downlink client arms one
per call; the uplink client arms none). -/
structure PendingEntry where
  id : String
  method : String
  hasTimer : Bool
  timerMs : Nat
deriving DecidableEq, Repr

/-- A structured JS error value: name, message, stack. -/
structure JsError where
  name : String
  message : String
  stack : Option String
deriving DecidableEq, Repr

/-- `new Error(m)`: the name is `Error` and the remote stack is not carried
over. -/
def newJsError (m : String) : JsError := ⟨"Error", m, none⟩

/-- The wire messages of the protocol (args/results abstracted). -/
inductive RpcMsg where
  | call (id method : String)
  | response (id : String) (result : Val)
  | error (id : String) (error : String)
  | uplinkCall (id serviceName method : String)
  | uplinkResponse (id : String) (result : Val)
  | uplinkError (id : String) (error : String)
deriving DecidableEq, Repr

/-- `` `RPC Timeout: Call to '${method}' took > ${timeoutMs}ms` ``. -/
def rpcTimeoutMsg (method : String) (timeoutMs : Nat) : String :=
  "RPC Timeout: Call to " ++ sq ++ method ++ sq ++ " took > " ++ toString timeoutMs ++ "ms"

/-- `proxy.method(...)` in `createRpcClient`: mint an id, arm the timeout
timer, record the pending entry, send `CALL`. -/
def rpcClientCall (timeoutMs : Nat) (pending : List PendingEntry)
    (fresh method : String) : List PendingEntry × RpcMsg :=
  (pending ++ [⟨fresh, method, true, timeoutMs⟩], .call fresh method)

/-- The body of an armed `setTimeout` callback: remove the pending entry and
reject with the RPC-timeout error. An entry with `hasTimer = false` scheduled
no callback, so nothing can fire for it. -/
def fireTimer (pending : List PendingEntry) (i : String) :
    List PendingEntry × Option String :=
  match pending.find? (fun e => e.id == i) with
  | some e =>
    if e.hasTimer then
      (pending.filter (fun e2 => e2.id != i), some (rpcTimeoutMsg e.method e.timerMs))
    else (pending, none)
  | none => (pending, none)

/-- The `worker.on('message')` dispatcher in `createRpcClient`: resolve or
reject the matching pending entry and delete it; the rejection is
`new Error(msg.error)`. -/
def rpcClientOnMessage (pending : List PendingEntry) (msg : RpcMsg) :
    List PendingEntry × Option (String × Except JsError Val) :=
  match msg with
  | .response i v =>
    (pending.filter (fun e => e.id != i),
     (pending.find? (fun e => e.id == i)).map (fun _ => (i, .ok v)))
  | .error i em =>
    (pending.filter (fun e => e.id != i),
     (pending.find? (fun e => e.id == i)).map (fun _ => (i, .error (newJsError em))))
  | _ => (pending, none)

/-- `deps[serviceName][method](...)` in `createUplinkClient`: mint an id,
record the pending entry — no timeout timer is armed — and send
`UPLINK_CALL`. -/
def uplinkClientCall (pending : List PendingEntry)
    (fresh serviceName method : String) : List PendingEntry × RpcMsg :=
  (pending ++ [⟨fresh, method, false, 0⟩], .uplinkCall fresh serviceName method)

/-- The `port.on('message')` dispatcher in `createUplinkClient`. -/
def uplinkClientOnMessage (pending : List PendingEntry) (msg : RpcMsg) :
    List PendingEntry × Option (String × Except JsError Val) :=
  match msg with
  | .uplinkResponse i v =>
    (pending.filter (fun e => e.id != i),
     (pending.find? (fun e => e.id == i)).map (fun _ => (i, .ok v)))
  | .uplinkError i em =>
    (pending.filter (fun e => e.id != i),
     (pending.find? (fun e => e.id == i)).map (fun _ => (i, .error (newJsError em))))
  | _ => (pending, none)

/-- The catch branch of `createRpcServer`: the `ERROR` frame carries only
`err.message`. -/
def rpcServerErrorFrame (callId : String) (err : JsError) : RpcMsg :=
  .error callId err.message

/-- The catch branch of `createUplinkServer`. -/
def uplinkServerErrorFrame (callId : String) (err : JsError) : RpcMsg :=
  .uplinkError callId err.message

/-- The payload shape of the `serializeError` helper. -/
structure SerializedError where
  message : String
  stack : Option String
  name : String
deriving DecidableEq, Repr

/-- The `serializeError` helper of rpc.ts (defined there but not used by any
message path). -/
def serializeError (err : JsError) : SerializedError :=
  ⟨if err.message = "" then "Unknown Error" else err.message, err.stack, err.name⟩

/-- The `deserializeError` helper of rpc.ts (defined there but not used by
any message path). -/
def deserializeError (d : SerializedError) : JsError := ⟨d.name, d.message, d.stack⟩

/-- Worker-host `bootstrap`: the service exposed over RPC is the value
captured by `mockCtx.registerService`, else the value returned by `setup`
(`if (!serviceImplementation && result) serviceImplementation = result`). -/
def bootstrapServiceImpl (registered result : Option Val) : Option Val :=
  match registered with
  | some r => some r
  | none => result

/-- The receiver's view of the error payload of a frame (`msg.error`). -/
def errorPayload : RpcMsg → String
  | .error _ em => em
  | .uplinkError _ em => em
  | _ => ""

/-! ## Concrete fixtures, used by the concrete evaluations below -/

/-- Scenario S1 of the spec: linear chain, all main mode. -/
def gS1 : List PluginInstance :=
  [ ⟨"sys-logger", "L", 0, [], Mode.main⟩,
    ⟨"db", "D", 0, [("logger", "sys-logger")], Mode.main⟩,
    ⟨"api", "A", 0, [("logger", "sys-logger"), ("db", "db")], Mode.main⟩ ]

/-- Scenario S3 of the spec: a two-cycle X → Y → X. -/
def gCyc : List PluginInstance :=
  [ ⟨"X", "T", 0, [("a", "Y")], Mode.main⟩,
    ⟨"Y", "T", 0, [("b", "X")], Mode.main⟩ ]

/-- A plain main-mode type with a teardown hook and a permissive schema. -/
def tyPlain : TypeDef := ⟨"L", fun _ => true, none, none, true⟩

/-- A main-mode type declaring requirement `logger`. -/
def tyReqM : TypeDef := ⟨"RM", fun _ => true, some ["logger"], none, false⟩

/-- A worker-mode type declaring requirement `logger`, with an entry point. -/
def tyReqW : TypeDef := ⟨"RW", fun _ => true, some ["logger"], some "w.mjs", false⟩

def instA : PluginInstance := ⟨"A", "L", 0, [], Mode.main⟩

def instB : PluginInstance := ⟨"B", "L", 0, [], Mode.main⟩

def instW : PluginInstance := ⟨"W", "RW", 0, [], Mode.worker⟩

def instM : PluginInstance := ⟨"M", "RM", 0, [], Mode.main⟩

/-- An engine holding two plain main-mode instances `A` and `B`. -/
def engAB : EngineState := ⟨[("L", tyPlain)], [instA, instB], [], [], false⟩

/-- Setup behaviour: `A` returns a service value, `B` throws. -/
def setupsB : SetupFun := fun i svc =>
  if i = "B" then .error "boom" else .ok (svc, some 1)

/-- Setup behaviour that registers nothing and returns nothing. -/
def setupsNone : SetupFun := fun _ svc => .ok (svc, none)

def proxy0 : String → Val := fun _ => 0

/-- Teardown behaviour: `B` throws, everything else succeeds. -/
def tdB : String → Except String Unit := fun i =>
  if i = "B" then .error "tdboom" else .ok ()

end EazyCore

/-! # Theorems -/

namespace EazyCore

theorem instGet_mem {g : List PluginInstance} {i : String} {p : PluginInstance}
    (h : instGet g i = some p) : p ∈ g ∧ p.id = i := by
  unfold instGet at h
  refine ⟨List.mem_of_find?_eq_some h, ?_⟩
  have := List.find?_some h
  simpa using this

theorem instHas_iff {g : List PluginInstance} {i : String} :
    instHas g i = true ↔ i ∈ g.map (·.id) := by
  unfold instHas instGet
  rw [List.find?_isSome]
  constructor
  · rintro ⟨p, hp, he⟩
    exact List.mem_map.mpr ⟨p, hp, by simpa using he⟩
  · rintro h
    rcases List.mem_map.mp h with ⟨p, hp, rfl⟩
    exact ⟨p, hp, by simp⟩

theorem instHas_of_mem {g : List PluginInstance} {p : PluginInstance} (h : p ∈ g) :
    instHas g p.id = true :=
  instHas_iff.mpr (List.mem_map.mpr ⟨p, h, rfl⟩)

theorem edge_iff {g : List PluginInstance} {a b : String} :
    edge g a b ↔ ∃ p, instGet g a = some p ∧ b ∈ p.wiring.map Prod.snd ∧
      instHas g b = true := by
  unfold edge edgeb
  cases h : instGet g a with
  | none => simp
  | some p => simp [h]

theorem edge_reg_left {g : List PluginInstance} {a b : String} (h : edge g a b) :
    instHas g a = true := by
  rcases edge_iff.mp h with ⟨p, hp, _, _⟩
  unfold instHas
  rw [hp]
  rfl

theorem edge_reg_right {g : List PluginInstance} {a b : String} (h : edge g a b) :
    instHas g b = true := (edge_iff.mp h).choose_spec.2.2

theorem instGet_of_mem_nodup {g : List PluginInstance} {p : PluginInstance}
    (hnd : (g.map (·.id)).Nodup) (hp : p ∈ g) : instGet g p.id = some p := by
  induction g with
  | nil => cases hp
  | cons q rest ih =>
    rcases List.mem_cons.mp hp with rfl | hp2
    · simp [instGet]
    · have hqid : q.id ≠ p.id := by
        intro he
        have : p.id ∈ rest.map (·.id) := List.mem_map.mpr ⟨p, hp2, rfl⟩
        rw [← he] at this
        exact (List.nodup_cons.mp (by simpa using hnd)).1 this
      have ih2 := ih (List.nodup_cons.mp (by simpa using hnd)).2 hp2
      unfold instGet at ih2 ⊢
      rw [List.find?_cons_of_neg _ (by simpa using hqid)]
      exact ih2

theorem visit_visited {g : List PluginInstance} {f : Nat} {n : String}
    {anc : List String} {st : DfsState} (h1 : n ∈ st.visited) :
    visit g (f + 1) n anc st = .ok st := by
  simp [visit, h1]

theorem visit_cycle {g : List PluginInstance} {f : Nat} {n : String}
    {anc : List String} {st : DfsState} (h1 : n ∉ st.visited) (h2 : n ∈ st.visiting) :
    visit g (f + 1) n anc st = .error (cyclicMsg anc n) := by
  simp [visit, h1, h2]

theorem visit_step_ok {g : List PluginInstance} {f : Nat} {n : String}
    {anc : List String} {st st2 : DfsState} (h1 : n ∉ st.visited) (h2 : n ∉ st.visiting)
    {p : PluginInstance} (hp : instGet g n = some p)
    (hl : visitList g f (p.wiring.map Prod.snd) (anc ++ [n])
      ⟨st.visited, n :: st.visiting, st.sorted⟩ = .ok st2) :
    visit g (f + 1) n anc st =
      .ok ⟨n :: st2.visited, st2.visiting.erase n, st2.sorted ++ [n]⟩ := by
  simp [visit, h1, h2, hp, hl]

theorem visit_step_err {g : List PluginInstance} {f : Nat} {n : String}
    {anc : List String} {st : DfsState} {e : String} (h1 : n ∉ st.visited)
    (h2 : n ∉ st.visiting) {p : PluginInstance} (hp : instGet g n = some p)
    (hl : visitList g f (p.wiring.map Prod.snd) (anc ++ [n])
      ⟨st.visited, n :: st.visiting, st.sorted⟩ = .error e) :
    visit g (f + 1) n anc st = .error e := by
  simp [visit, h1, h2, hp, hl]

theorem visitList_nil {g : List PluginInstance} {f : Nat} {anc : List String}
    {st : DfsState} : visitList g f [] anc st = .ok st := by
  simp [visitList]

theorem visitList_cons_ok {g : List PluginInstance} {f : Nat} {d : String}
    (ds : List String) {anc : List String} {st st1 : DfsState}
    (h : instHas g d = true) (hv : visit g f d anc st = .ok st1) :
    visitList g f (d :: ds) anc st = visitList g f ds anc st1 := by
  simp [visitList, h, hv]

theorem visitList_cons_err {g : List PluginInstance} {f : Nat} {d : String}
    (ds : List String) {anc : List String} {st : DfsState} {e : String}
    (h : instHas g d = true) (hv : visit g f d anc st = .error e) :
    visitList g f (d :: ds) anc st = .error e := by
  simp [visitList, h, hv]

theorem visitList_cons_ext (g : List PluginInstance) (f : Nat) (d : String)
    (ds anc : List String) (st : DfsState) (h : instHas g d = false) :
    visitList g f (d :: ds) anc st = visitList g f ds anc st := by
  simp [visitList, h]

theorem visit_visitList_spec (g : List PluginInstance) : ∀ fuel : Nat,
    (∀ n anc st, Inv g st → st.visiting = anc.reverse →
      List.Chain' (edge g) (anc ++ [n]) → instHas g n = true →
      (regFin g \ st.visiting.toFinset).card < fuel →
      (∃ st', visit g fuel n anc st = .ok st' ∧ VisitGood g st st' n) ∨
      (∃ msg, visit g fuel n anc st = .error msg ∧ IsCycleErr g msg)) ∧
    (∀ ds anc st, Inv g st → st.visiting = anc.reverse →
      (∀ d ∈ ds, instHas g d = true → List.Chain' (edge g) (anc ++ [d])) →
      (regFin g \ st.visiting.toFinset).card < fuel →
      (∃ st', visitList g fuel ds anc st = .ok st' ∧ ListGood g st st' ds) ∨
      (∃ msg, visitList g fuel ds anc st = .error msg ∧ IsCycleErr g msg)) := by
  intro fuel
  induction fuel with
  | zero =>
    exact ⟨fun n anc st _ _ _ _ hcard => absurd hcard (by omega),
           fun ds anc st _ _ _ hcard => absurd hcard (by omega)⟩
  | succ f ih =>
    obtain ⟨ihV, ihL⟩ := ih
    have hV : ∀ n anc st, Inv g st → st.visiting = anc.reverse →
        List.Chain' (edge g) (anc ++ [n]) → instHas g n = true →
        (regFin g \ st.visiting.toFinset).card < f + 1 →
        (∃ st', visit g (f + 1) n anc st = .ok st' ∧ VisitGood g st st' n) ∨
        (∃ msg, visit g (f + 1) n anc st = .error msg ∧ IsCycleErr g msg) := by
      intro n anc st hInv hvis hch hreg hcard
      by_cases h1 : n ∈ st.visited
      · exact .inl ⟨st, visit_visited h1, hInv, rfl, ⟨[], by simp⟩, h1, fun x hx => hx⟩
      · by_cases h2 : n ∈ st.visiting
        · refine .inr ⟨cyclicMsg anc n, visit_cycle h1 h2, anc, n, rfl, ?_, hch⟩
          have hmem : n ∈ anc.reverse := hvis ▸ h2
          simpa using hmem
        · obtain ⟨p, hp⟩ :=
            Option.isSome_iff_exists.mp (show (instGet g n).isSome = true from hreg)
          -- state after pushing n on the visiting stack
          have hdisj1 : ∀ x ∈ (n :: st.visiting), x ∉ st.visited := by
            intro x hx
            rcases List.mem_cons.mp hx with rfl | hx2
            · exact h1
            · exact hInv.disj x hx2
          have hInv1 : Inv g ⟨st.visited, n :: st.visiting, st.sorted⟩ :=
            ⟨hdisj1, hInv.visited_eq, hInv.nodup_sorted, hInv.sorted_reg, hInv.topo⟩
          have hvis1 : (⟨st.visited, n :: st.visiting, st.sorted⟩ : DfsState).visiting
              = (anc ++ [n]).reverse := by
            simp [hvis]
          have hds : ∀ d ∈ p.wiring.map Prod.snd, instHas g d = true →
              List.Chain' (edge g) ((anc ++ [n]) ++ [d]) := by
            intro d hd hdreg
            have hedge : edge g n d := edge_iff.mpr ⟨p, hp, hd, hdreg⟩
            refine List.Chain'.append hch (List.chain'_singleton d) ?_
            intro x hx y hy
            rw [List.getLast?_concat] at hx
            simp only [Option.mem_def, Option.some.injEq, List.head?_cons] at hx hy
            rw [← hx, ← hy]
            exact hedge
          have hnR : n ∈ regFin g := by
            rw [regFin, List.mem_toFinset]
            exact instHas_iff.mp hreg
          have hcard1 : (regFin g \ (n :: st.visiting).toFinset).card < f := by
            have hsub : regFin g \ (n :: st.visiting).toFinset ⊆
                regFin g \ st.visiting.toFinset := by
              refine Finset.sdiff_subset_sdiff (Finset.Subset.refl _) ?_
              rw [List.toFinset_cons]
              exact Finset.subset_insert n _
            have hmemn : n ∈ (n :: st.visiting).toFinset := by simp
            have hss : regFin g \ (n :: st.visiting).toFinset ⊂
                regFin g \ st.visiting.toFinset := by
              rw [Finset.ssubset_iff_of_subset hsub]
              refine ⟨n, ?_, ?_⟩
              · rw [Finset.mem_sdiff]
                exact ⟨hnR, by simpa using h2⟩
              · simp [Finset.mem_sdiff, hmemn]
            have := Finset.card_lt_card hss
            omega
          rcases ihL (p.wiring.map Prod.snd) (anc ++ [n])
              ⟨st.visited, n :: st.visiting, st.sorted⟩ hInv1 hvis1 hds hcard1 with
            ⟨st2, hok, hInv2, hvs2, ⟨t2, hsor2⟩, hdep2, hmono2⟩ | ⟨msg, herr, hmsg⟩
          · -- success: construct the popped state
            have hvseq : st2.visiting = n :: st.visiting := hvs2
            have hrun := visit_step_ok h1 h2 hp hok
            have hnng : n ∉ st2.visited := hInv2.disj n (by rw [hvseq]; exact List.mem_cons_self n _)
            have hnns : n ∉ st2.sorted := fun hc => hnng ((hInv2.visited_eq n).mpr hc)
            refine .inl ⟨⟨n :: st2.visited, st2.visiting.erase n, st2.sorted ++ [n]⟩, hrun, ?_, ?_, ?_, ?_, ?_⟩
            · -- Inv of the final state
              refine ⟨?_, ?_, ?_, ?_, ?_⟩
              · -- disj
                intro x hx
                simp only [hvseq, List.erase_cons_head] at hx
                intro hmem
                rcases List.mem_cons.mp hmem with rfl | hmem2
                · exact h2 hx
                · exact hInv2.disj x (by rw [hvseq]; exact List.mem_cons_of_mem n hx) hmem2
              · -- visited_eq
                intro x
                constructor
                · intro hx
                  rcases List.mem_cons.mp hx with rfl | hx2
                  · simp
                  · simp [List.mem_append, (hInv2.visited_eq x).mp hx2]
                · intro hx
                  rcases List.mem_append.mp hx with hx2 | hx2
                  · exact List.mem_cons_of_mem n ((hInv2.visited_eq x).mpr hx2)
                  · simp only [List.mem_singleton] at hx2
                    rw [hx2]
                    exact List.mem_cons_self n _
              · -- nodup
                simp [List.nodup_append, hInv2.nodup_sorted, hnns]
              · -- sorted_reg
                intro x hx
                rcases List.mem_append.mp hx with hx2 | hx2
                · exact hInv2.sorted_reg x hx2
                · simp only [List.mem_singleton] at hx2
                  rw [hx2]; exact hreg
              · -- topo
                intro a b hedge ha
                rcases List.mem_append.mp ha with ha2 | ha2
                · exact (hInv2.topo a b hedge ha2).trans (List.sublist_append_left _ _)
                · simp only [List.mem_singleton] at ha2
                  subst ha2
                  rcases edge_iff.mp hedge with ⟨p2, hp2, hbmem, hbreg⟩
                  rw [hp] at hp2
                  have hp2e : p2 = p := by injection hp2.symm
                  subst hp2e
                  have hbvis : b ∈ st2.visited := hdep2 b hbmem hbreg
                  have hbsor : b ∈ st2.sorted := (hInv2.visited_eq b).mp hbvis
                  have : ([b] ++ [a]).Sublist (st2.sorted ++ [a]) :=
                    List.Sublist.append (List.singleton_sublist.mpr hbsor) (List.Sublist.refl _)
                  simpa using this
            · -- visiting restored
              simp [hvseq]
            · -- sorted extended
              exact ⟨t2 ++ [n], by rw [hsor2]; simp⟩
            · exact List.mem_cons_self n _
            · intro x hx
              exact List.mem_cons_of_mem n (hmono2 x hx)
          · -- error propagates
            exact .inr ⟨msg, visit_step_err h1 h2 hp herr, hmsg⟩
    refine ⟨hV, ?_⟩
    intro ds
    induction ds with
    | nil =>
      intro anc st hInv hvis _ _
      exact .inl ⟨st, visitList_nil, hInv, rfl, ⟨[], by simp⟩, by simp, fun x hx => hx⟩
    | cons d ds ihds =>
      intro anc st hInv hvis hds hcard
      by_cases hgd : instHas g d = true
      · rcases hV d anc st hInv hvis (hds d (List.mem_cons_self d ds) hgd) hgd hcard with
          ⟨st1, hok1, hInv1, hvs1, ⟨t1, hsor1⟩, hdvis, hmono1⟩ | ⟨msg, herr, hm⟩
        · have hrun := visitList_cons_ok ds hgd hok1
          rcases ihds anc st1 hInv1 (hvs1.trans hvis)
              (fun d2 h2 hr => hds d2 (List.mem_cons_of_mem d h2) hr)
              (by rw [hvs1]; exact hcard) with
            ⟨st2, hok2, hInv2, hvs2, ⟨t2, hsor2⟩, hds2, hmono2⟩ | ⟨msg, herr2, hm2⟩
          · refine .inl ⟨st2, hrun.trans hok2, hInv2, hvs2.trans hvs1, ⟨t1 ++ t2, ?_⟩, ?_, fun x hx => hmono2 x (hmono1 x hx)⟩
            · rw [hsor2, hsor1, List.append_assoc]
            · intro d2 hd2 hr
              rcases List.mem_cons.mp hd2 with rfl | hd3
              · exact hmono2 d2 hdvis
              · exact hds2 d2 hd3 hr
          · exact .inr ⟨msg, hrun.trans herr2, hm2⟩
        · exact .inr ⟨msg, visitList_cons_err ds hgd herr, hm⟩
      · have hgdf : instHas g d = false := by
          cases h : instHas g d
          · rfl
          · exact absurd h hgd
        have hrun := visitList_cons_ext g (f + 1) d ds anc st hgdf
        rcases ihds anc st hInv hvis
            (fun d2 h2 hr => hds d2 (List.mem_cons_of_mem d h2) hr) hcard with
          ⟨st2, hok2, hInv2, hvs2, hext, hds2, hmono2⟩ | ⟨msg, herr2, hm2⟩
        · refine .inl ⟨st2, hrun.trans hok2, hInv2, hvs2, hext, ?_, hmono2⟩
          intro d2 hd2 hr
          rcases List.mem_cons.mp hd2 with rfl | hd3
          · exact absurd hr hgd
          · exact hds2 d2 hd3 hr
        · exact .inr ⟨msg, hrun.trans herr2, hm2⟩

theorem visitAll_ok {g : List PluginInstance} {f : Nat} {i : String}
    {rest : List String} {st st1 : DfsState} (hv : visit g f i [] st = .ok st1) :
    visitAll g f (i :: rest) st = visitAll g f rest st1 := by
  simp [visitAll, hv]

theorem visitAll_err {g : List PluginInstance} {f : Nat} {i : String}
    {rest : List String} {st : DfsState} {e : String}
    (hv : visit g f i [] st = .error e) :
    visitAll g f (i :: rest) st = .error e := by
  simp [visitAll, hv]

theorem visitAll_spec (g : List PluginInstance) (fuel : Nat) : ∀ ids (st : DfsState),
    Inv g st → st.visiting = [] → (∀ i ∈ ids, instHas g i = true) →
    (regFin g).card < fuel →
    (∃ st', visitAll g fuel ids st = .ok st' ∧ Inv g st' ∧ st'.visiting = [] ∧
      (∀ i ∈ ids, i ∈ st'.sorted) ∧ (∀ x ∈ st.sorted, x ∈ st'.sorted)) ∨
    (∃ msg, visitAll g fuel ids st = .error msg ∧ IsCycleErr g msg) := by
  intro ids
  induction ids with
  | nil =>
    intro st hInv hvis _ _
    exact .inl ⟨st, by simp [visitAll], hInv, hvis, by simp, fun x hx => hx⟩
  | cons i rest ih =>
    intro st hInv hvis hall hcard
    have hreg : instHas g i = true := hall i (List.mem_cons_self i rest)
    have hcard0 : (regFin g \ st.visiting.toFinset).card < fuel := by
      rw [hvis]
      simpa using hcard
    rcases (visit_visitList_spec g fuel).1 i [] st hInv (by simpa using hvis)
        (List.chain'_singleton i) hreg hcard0 with
      ⟨st1, hok, hInv1, hvs1, ⟨t1, hsor1⟩, hivis, hmono1⟩ | ⟨msg, herr, hm⟩
    · rcases ih st1 hInv1 (hvs1.trans hvis)
          (fun j hj => hall j (List.mem_cons_of_mem i hj)) hcard with
        ⟨st2, hok2, hInv2, hvs2, hall2, hmono2⟩ | ⟨msg, herr2, hm2⟩
      · refine .inl ⟨st2, (visitAll_ok hok).trans hok2, hInv2, hvs2, ?_, ?_⟩
        · intro j hj
          rcases List.mem_cons.mp hj with rfl | hj2
          · exact hmono2 j ((hInv1.visited_eq j).mp hivis)
          · exact hall2 j hj2
        · intro x hx
          refine hmono2 x ?_
          rw [hsor1]
          exact List.mem_append_left t1 hx
      · exact .inr ⟨msg, (visitAll_ok hok).trans herr2, hm2⟩
    · exact .inr ⟨msg, visitAll_err herr, hm⟩

theorem resolve_spec (g : List PluginInstance) :
    (∃ out, resolveExecutionOrder g = .ok out ∧ out.Nodup ∧
      (∀ x ∈ out, instHas g x = true) ∧ (∀ i ∈ g.map (·.id), i ∈ out) ∧
      (∀ a b, edge g a b → a ∈ out → [b, a].Sublist out)) ∨
    (∃ msg, resolveExecutionOrder g = .error msg ∧ IsCycleErr g msg) := by
  have hInv0 : Inv g ⟨[], [], []⟩ := by
    refine ⟨?_, ?_, ?_, ?_, ?_⟩ <;> simp
  have hcard : (regFin g).card < g.length + 1 := by
    have := List.toFinset_card_le (g.map (·.id))
    simp only [regFin]
    have hl : (g.map (·.id)).length = g.length := List.length_map g _
    omega
  rcases visitAll_spec g (g.length + 1) (g.map (·.id)) ⟨[], [], []⟩ hInv0 rfl
      (fun i hi => instHas_iff.mpr hi) hcard with
    ⟨st', hok, hInv', _, hall, _⟩ | ⟨msg, herr, hm⟩
  · refine .inl ⟨st'.sorted, ?_, hInv'.nodup_sorted, hInv'.sorted_reg, hall, hInv'.topo⟩
    simp [resolveExecutionOrder, hok]
  · refine .inr ⟨msg, ?_, hm⟩
    simp [resolveExecutionOrder, herr]

theorem sublist_pair_idx {l : List String} {b a : String} (h : [b, a].Sublist l)
    (hnd : l.Nodup) : l.indexOf b < l.indexOf a := by
  induction l with
  | nil => cases h
  | cons c t ih =>
    have hct : c ∉ t := (List.nodup_cons.mp hnd).1
    cases h with
    | cons _ h2 =>
      have hb : b ∈ t := h2.subset (List.mem_cons_self b [a])
      have ha : a ∈ t := h2.subset (List.mem_cons_of_mem b (List.mem_cons_self a []))
      have hbc : b ≠ c := fun he => hct (he ▸ hb)
      have hac : a ≠ c := fun he => hct (he ▸ ha)
      rw [List.indexOf_cons_ne t hbc.symm, List.indexOf_cons_ne t hac.symm]
      have := ih h2 (List.nodup_cons.mp hnd).2
      omega
    | cons₂ _ h2 =>
      have ha : a ∈ t := List.singleton_sublist.mp h2
      have hac : a ≠ b := fun he => hct (he ▸ ha)
      rw [List.indexOf_cons_self, List.indexOf_cons_ne t hac.symm]
      omega

theorem resolve_ok_props {g : List PluginInstance} {out : List String}
    (h : resolveExecutionOrder g = .ok out) :
    out.Nodup ∧ (∀ x ∈ out, instHas g x = true) ∧
    (∀ i ∈ g.map (·.id), i ∈ out) ∧
    (∀ a b, edge g a b → a ∈ out → [b, a].Sublist out) := by
  rcases resolve_spec g with ⟨out2, hok, hprops⟩ | ⟨msg, herr, _⟩
  · rw [h] at hok
    injection hok with he
    rw [he]
    exact hprops
  · rw [h] at herr
    cases herr

/-- If the resolver returns an order, the intra-graph wiring is acyclic. -/
theorem resolve_ok_acyclic {g : List PluginInstance} {out : List String}
    (h : resolveExecutionOrder g = .ok out) : Acyclic g := by
  obtain ⟨hnd, hreg, hall, htopo⟩ := resolve_ok_props h
  intro a hta
  have hrank : ∀ x y, Relation.TransGen (edge g) x y →
      out.indexOf y < out.indexOf x := by
    intro x y ht
    induction ht with
    | single h1 =>
      exact sublist_pair_idx (htopo _ _ h1 (hall _ (instHas_iff.mp (edge_reg_left h1)))) hnd
    | tail _ h1 ihp =>
      have := sublist_pair_idx (htopo _ _ h1 (hall _ (instHas_iff.mp (edge_reg_left h1)))) hnd
      omega
  exact absurd (hrank a a hta) (by omega)

theorem chain'_concat_transGen {r : String → String → Prop} :
    ∀ (l : List String) (a b : String), List.Chain' r (a :: (l ++ [b])) →
      Relation.TransGen r a b := by
  intro l
  induction l with
  | nil =>
    intro a b h
    simp only [List.nil_append] at h
    exact Relation.TransGen.single (List.chain'_cons.mp h).1
  | cons c t ih =>
    intro a b h
    simp only [List.cons_append] at h
    have h2 := List.chain'_cons.mp h
    exact Relation.TransGen.head h2.1 (ih c b h2.2)

/-- Every resolver error message encodes a genuine cycle of the graph. -/
theorem cycleErr_transGen {g : List PluginInstance} {msg : String}
    (h : IsCycleErr g msg) : ∃ n, Relation.TransGen (edge g) n n := by
  obtain ⟨anc, n, _, hmem, hch⟩ := h
  obtain ⟨s, t, rfl⟩ := List.append_of_mem hmem
  have hch2 : List.Chain' (edge g) (n :: (t ++ [n])) := by
    rw [List.append_assoc] at hch
    exact (List.chain'_append.mp hch).2.1
  exact ⟨n, chain'_concat_transGen t n n hch2⟩

theorem joinArrow_concat : ∀ (l : List String) (x : String), l ≠ [] →
    joinArrow (l ++ [x]) = joinArrow l ++ " -> " ++ x := by
  intro l
  induction l with
  | nil => intro x h; cases h rfl
  | cons a t ih =>
    intro x _
    cases t with
    | nil => simp [joinArrow]
    | cons b u =>
      have ih2 := ih x (by simp)
      simp only [List.cons_append] at ih2 ⊢
      simp only [joinArrow]
      rw [ih2]
      simp [String.append_assoc]

theorem joinArrow_append : ∀ (s m : List String), s ≠ [] → m ≠ [] →
    joinArrow (s ++ m) = joinArrow s ++ " -> " ++ joinArrow m := by
  intro s
  induction s with
  | nil => intro m h _; cases h rfl
  | cons a t ih =>
    intro m _ hm
    cases t with
    | nil =>
      cases m with
      | nil => cases hm rfl
      | cons b u => simp [joinArrow]
    | cons b u =>
      have ih2 := ih m (by simp) hm
      simp only [List.cons_append] at ih2 ⊢
      simp only [joinArrow]
      rw [ih2]
      simp [String.append_assoc]

/-- C1: for every registered instance set with nodup ids whose intra-graph
wiring is acyclic, `resolveExecutionOrder` returns a total order over exactly
the registered instance ids in which every registered wiring target (provider)
precedes its consumer; wiring entries whose target is not registered are
ignored and such targets never appear in the output. -/
theorem resolveExecutionOrder_sound_of_acyclic (g : List PluginInstance)
    (hnd : (g.map (·.id)).Nodup) (hacyc : Acyclic g) :
    ∃ out, resolveExecutionOrder g = .ok out ∧
      out.Perm (g.map (·.id)) ∧
      (∀ p ∈ g, ∀ e ∈ p.wiring, instHas g e.2 = true → [e.2, p.id].Sublist out) ∧
      (∀ x, instHas g x = false → x ∉ out) := by
  rcases resolve_spec g with ⟨out, hok, hnd2, hreg, hall, htopo⟩ | ⟨msg, herr, hm⟩
  · refine ⟨out, hok, ?_, ?_, ?_⟩
    · exact (List.perm_ext_iff_of_nodup hnd2 hnd).mpr
        (fun a => ⟨fun ha => instHas_iff.mp (hreg a ha), fun ha => hall a ha⟩)
    · intro p hp e he hr
      have hpe : instGet g p.id = some p := instGet_of_mem_nodup hnd hp
      have hedge : edge g p.id e.2 := edge_iff.mpr ⟨p, hpe, List.mem_map.mpr ⟨e, he, rfl⟩, hr⟩
      exact htopo _ _ hedge (hall _ (List.mem_map.mpr ⟨p, hp, rfl⟩))
    · intro x hx hmem
      rw [hreg x hmem] at hx
      cases hx
  · obtain ⟨n, hn⟩ := cycleErr_transGen hm
    exact absurd hn (hacyc n)

/-- C3: for every registered instance set whose intra-graph wiring contains a
cycle (self-wiring included), `resolveExecutionOrder` — and hence `start`, dry
run included — fails, and the diagnostic message contains (as a suffix) the
cycle path with its nodes joined by arrows and ending at the repeated node. -/
theorem resolveExecutionOrder_cyclic_diagnostic (g : List PluginInstance)
    (hcyc : ∃ a, Relation.TransGen (edge g) a a) :
    ∃ msg, resolveExecutionOrder g = .error msg ∧
      (∀ (types : List (String × TypeDef)) (svc : List (String × Val))
        (wk : List String) (lk : Bool) (setups : SetupFun)
        (proxyOf : String → Val) (dr : Bool),
        (start ⟨types, g, svc, wk, lk⟩ setups proxyOf dr).err = some msg) ∧
      ∃ pre c h, msg = pre ++ joinArrow (h :: (c ++ [h])) ∧
        List.Chain' (edge g) (h :: (c ++ [h])) := by
  rcases resolve_spec g with ⟨out, hok, _⟩ | ⟨msg, herr, hm⟩
  · obtain ⟨a, ha⟩ := hcyc
    exact absurd ha (resolve_ok_acyclic hok a)
  · refine ⟨msg, herr, ?_, ?_⟩
    · intro types svc wk lk setups proxyOf dr
      simp [start, herr]
    · obtain ⟨anc, n, hmsg, hmem, hch⟩ := hm
      obtain ⟨s, t, rfl⟩ := List.append_of_mem hmem
      have hch2 : List.Chain' (edge g) (n :: (t ++ [n])) := by
        rw [List.append_assoc] at hch
        exact (List.chain'_append.mp hch).2.1
      cases s with
      | nil =>
        refine ⟨"Cyclic dependency: ", t, n, ?_, hch2⟩
        rw [hmsg]
        unfold cyclicMsg
        have hc := joinArrow_concat (n :: t) n (by simp)
        simp only [List.cons_append] at hc
        rw [hc]
        simp [String.append_assoc]
      | cons s0 s1 =>
        refine ⟨"Cyclic dependency: " ++ joinArrow (s0 :: s1) ++ " -> ", t, n, ?_, hch2⟩
        rw [hmsg]
        unfold cyclicMsg
        have hc := joinArrow_concat ((s0 :: s1) ++ n :: t) n (by simp)
        rw [List.append_assoc] at hc
        have ha := joinArrow_append (s0 :: s1) (n :: (t ++ [n])) (by simp) (by simp)
        simp only [List.cons_append] at hc ha ⊢
        have hkey : joinArrow (s0 :: (s1 ++ n :: t)) ++ " -> " ++ n
            = joinArrow (s0 :: s1) ++ " -> " ++ joinArrow (n :: (t ++ [n])) :=
          hc.symm.trans ha
        calc "Cyclic dependency: " ++ joinArrow (s0 :: (s1 ++ n :: t)) ++ " -> " ++ n
            = "Cyclic dependency: " ++
              (joinArrow (s0 :: (s1 ++ n :: t)) ++ " -> " ++ n) := by
              simp [String.append_assoc]
          _ = "Cyclic dependency: " ++
              (joinArrow (s0 :: s1) ++ " -> " ++ joinArrow (n :: (t ++ [n]))) := by
              rw [hkey]
          _ = "Cyclic dependency: " ++ joinArrow (s0 :: s1) ++ " -> " ++
              joinArrow (n :: (t ++ [n])) := by
              simp [String.append_assoc]

theorem stopStep_none (types : List (String × TypeDef)) (td : String → Except String Unit)
    (g : List PluginInstance) (i : String) (wk : List String) (inst : PluginInstance)
    (hinst : instGet g i = some inst) :
    ∃ wk1 nl nt, stopStep types td g i wk = (none, wk1, nl, nt) ∧
      ∀ ty e, inst.mode = Mode.main → tlookup types inst.typeId = some ty →
        ty.hasTeardown = true → td i = .error e → nl = [teardownErrLog i e] := by
  cases hm : inst.mode with
  | main =>
    cases ht : tlookup types inst.typeId with
    | none =>
      refine ⟨wk, [teardownErrLog i "TypeError"], [], ?_, ?_⟩
      · simp [stopStep, hinst, hm, ht]
      · intro ty e _ ht2
        cases ht2
    | some ty =>
      cases hty : ty.hasTeardown with
      | false =>
        refine ⟨wk, [], [], ?_, ?_⟩
        · simp [stopStep, hinst, hm, ht, hty]
        · intro ty2 e _ ht2 hty2 _
          injection ht2 with he
          rw [← he, hty] at hty2
          cases hty2
      | true =>
        cases hts : td i with
        | ok u =>
          refine ⟨wk, [], [i], ?_, ?_⟩
          · simp [stopStep, hinst, hm, ht, hty, hts]
          · intro ty2 e _ _ _ hts2
            cases hts2
        | error e =>
          refine ⟨wk, [teardownErrLog i e], [i], ?_, ?_⟩
          · simp [stopStep, hinst, hm, ht, hty, hts]
          · intro ty2 e2 _ _ _ hts2
            injection hts2 with he2
            rw [he2]
  | worker =>
    by_cases hw : i ∈ wk
    · refine ⟨wk.erase i, [terminatingLog i], [i], ?_, ?_⟩
      · simp [stopStep, hinst, hm, hw]
      · intro ty e hmm
        cases hmm
    · refine ⟨wk, [], [], ?_, ?_⟩
      · simp [stopStep, hinst, hm, hw]
      · intro ty e hmm
        cases hmm

theorem stopLoop_cons (types : List (String × TypeDef)) (td : String → Except String Unit)
    (g : List PluginInstance) (i : String) (rest wk vis logs tds wk1 nl nt : List String)
    (hstep : stopStep types td g i wk = (none, wk1, nl, nt)) :
    stopLoop types td g (i :: rest) wk vis logs tds =
      stopLoop types td g rest wk1 (vis ++ [i]) (logs ++ nl) (tds ++ nt) := by
  simp [stopLoop, hstep]

theorem stopLoop_spec (types : List (String × TypeDef)) (td : String → Except String Unit)
    (g : List PluginInstance) : ∀ (l wk vis logs tds : List String),
    (∀ i ∈ l, instHas g i = true) →
    (stopLoop types td g l wk vis logs tds).err = none ∧
    (stopLoop types td g l wk vis logs tds).visits = vis ++ l ∧
    (∀ x ∈ logs, x ∈ (stopLoop types td g l wk vis logs tds).logs) ∧
    (∀ i ∈ l, ∀ inst ty e, instGet g i = some inst → inst.mode = Mode.main →
      tlookup types inst.typeId = some ty → ty.hasTeardown = true →
      td i = .error e → teardownErrLog i e ∈ (stopLoop types td g l wk vis logs tds).logs) := by
  intro l
  induction l with
  | nil =>
    intro wk vis logs tds _
    exact ⟨rfl, by simp [stopLoop], fun x hx => hx, by simp⟩
  | cons i rest ih =>
    intro wk vis logs tds hall
    have hreg := hall i (List.mem_cons_self i rest)
    obtain ⟨inst, hinst⟩ :=
      Option.isSome_iff_exists.mp (show (instGet g i).isSome = true from hreg)
    obtain ⟨wk1, nl, nt, hstep, hnl⟩ := stopStep_none types td g i wk inst hinst
    rw [stopLoop_cons types td g i rest wk vis logs tds wk1 nl nt hstep]
    obtain ⟨herr, hvis, hmono, hfail⟩ := ih wk1 (vis ++ [i]) (logs ++ nl) (tds ++ nt)
      (fun j hj => hall j (List.mem_cons_of_mem i hj))
    refine ⟨herr, by rw [hvis]; simp, ?_, ?_⟩
    · intro x hx
      exact hmono x (List.mem_append_left nl hx)
    · intro j hj inst2 ty e h1 h2 h3 h4 h5
      rcases List.mem_cons.mp hj with rfl | hj2
      · rw [hinst] at h1
        injection h1 with he
        rw [← he] at h2 h3
        have := hnl ty e h2 h3 h4 h5
        refine hmono (teardownErrLog j e) ?_
        rw [this]
        simp
      · exact hfail j hj2 inst2 ty e h1 h2 h3 h4 h5

/-- C2: for every engine whose resolver succeeds, `stop()` visits the
instances in exactly the reverse of the resolved order, for every possible
teardown behaviour; a throwing teardown is caught and logged and `stop`
returns without raising. -/
theorem stop_reverse_visits (st : EngineState) (td : String → Except String Unit)
    (order : List String) (horder : resolveExecutionOrder st.instances = .ok order) :
    (stop st td false).err = none ∧
    (stop st td false).visits = order.reverse ∧
    (∀ i ∈ order, ∀ inst ty e, instGet st.instances i = some inst →
      inst.mode = Mode.main → tlookup st.pluginTypes inst.typeId = some ty →
      ty.hasTeardown = true → td i = .error e →
      teardownErrLog i e ∈ (stop st td false).logs) := by
  have hreg := (resolve_ok_props horder).2.1
  have hstop : stop st td false =
      stopLoop st.pluginTypes td st.instances order.reverse st.workers [] [] [] := by
    simp [stop, horder]
  obtain ⟨herr, hvis, _, hfail⟩ :=
    stopLoop_spec st.pluginTypes td st.instances order.reverse st.workers [] [] []
      (fun i hi => hreg i (List.mem_reverse.mp hi))
  rw [hstop]
  refine ⟨herr, by rw [hvis]; simp, ?_⟩
  intro i hi inst ty e h1 h2 h3 h4 h5
  exact hfail i (List.mem_reverse.mpr hi) inst ty e h1 h2 h3 h4 h5

theorem startLoop_cons_err (types : List (String × TypeDef)) (setups : SetupFun)
    (proxyOf : String → Val) (g : List PluginInstance) (i : String)
    (rest : List String) (svc : List (String × Val)) (wk vis : List String)
    (e : String) (svc1 : List (String × Val)) (wk1 : List String)
    (hstep : startStep types setups proxyOf g i svc wk = (some e, svc1, wk1)) :
    startLoop types setups proxyOf g (i :: rest) svc wk vis =
      ⟨some e, svc1, wk1, vis ++ [i], []⟩ := by
  simp [startLoop, hstep]

theorem startLoop_cons_ok (types : List (String × TypeDef)) (setups : SetupFun)
    (proxyOf : String → Val) (g : List PluginInstance) (i : String)
    (rest : List String) (svc : List (String × Val)) (wk vis : List String)
    (svc1 : List (String × Val)) (wk1 : List String)
    (hstep : startStep types setups proxyOf g i svc wk = (none, svc1, wk1)) :
    startLoop types setups proxyOf g (i :: rest) svc wk vis =
      startLoop types setups proxyOf g rest svc1 wk1 (vis ++ [i]) := by
  simp [startLoop, hstep]

theorem startLoop_spec (types : List (String × TypeDef)) (setups : SetupFun)
    (proxyOf : String → Val) (g : List PluginInstance) :
    ∀ (l : List String) (svc : List (String × Val)) (wk vis : List String),
    (startLoop types setups proxyOf g l svc wk vis).tds = [] ∧
    ∃ k, k ≤ l.length ∧
      (startLoop types setups proxyOf g l svc wk vis).visits = vis ++ l.take k ∧
      ((startLoop types setups proxyOf g l svc wk vis).err = none → k = l.length) := by
  intro l
  induction l with
  | nil =>
    intro svc wk vis
    exact ⟨rfl, 0, Nat.le_refl 0, by simp [startLoop], fun _ => rfl⟩
  | cons i rest ih =>
    intro svc wk vis
    rcases hstep : startStep types setups proxyOf g i svc wk with ⟨e, svc1, wk1⟩
    cases e with
    | some e =>
      rw [startLoop_cons_err types setups proxyOf g i rest svc wk vis e svc1 wk1 hstep]
      refine ⟨rfl, 1, by simp, by simp, ?_⟩
      intro h
      cases h
    | none =>
      rw [startLoop_cons_ok types setups proxyOf g i rest svc wk vis svc1 wk1 hstep]
      obtain ⟨h1, k, hk, hv, he⟩ := ih svc1 wk1 (vis ++ [i])
      refine ⟨h1, k + 1, by simp; omega, ?_, ?_⟩
      · rw [hv]
        simp
      · intro h
        have := he h
        simp [this]

/-- C5 amended: a structural, config, wiring, cycle or setup error at the
k-th instance aborts `start()` right there, but the k-1 already-started
instances are NOT torn down: no teardown hook is ever invoked by `start`. -/
theorem start_abort_no_teardown (st : EngineState) (setups : SetupFun)
    (proxyOf : String → Val) (order : List String)
    (horder : resolveExecutionOrder st.instances = .ok order) :
    (start st setups proxyOf false).tds = [] ∧
    ∃ k, k ≤ order.length ∧
      (start st setups proxyOf false).visits = order.take k ∧
      ((start st setups proxyOf false).err = none → k = order.length) := by
  have hstart : start st setups proxyOf false =
      startLoop st.pluginTypes setups proxyOf st.instances order st.services st.workers [] := by
    simp [start, horder]
  rw [hstart]
  obtain ⟨h1, k, hk, hv, he⟩ :=
    startLoop_spec st.pluginTypes setups proxyOf st.instances order st.services st.workers []
  exact ⟨h1, k, hk, by rw [hv]; simp, he⟩

theorem resolve_gS1 : resolveExecutionOrder gS1 = .ok ["sys-logger", "db", "api"] := by
  simp [resolveExecutionOrder, gS1, visitAll, visit, visitList, instGet, instHas, List.find?]

theorem resolve_engAB : resolveExecutionOrder engAB.instances = .ok ["A", "B"] := by
  simp [resolveExecutionOrder, engAB, instA, instB, visitAll, visit, visitList,
    instGet, instHas, List.find?]

/-- C5 counterexample: in the `A`, `B` engine where `B`'s setup throws,
`start` aborts with that error, `A`'s service stays registered, and no
teardown is invoked (in particular `A` is not torn down). -/
theorem start_abort_counterexample :
    start engAB setupsB proxy0 false = ⟨some "boom", [("A", 1)], [], ["A", "B"], []⟩ ∧
    (start engAB setupsB proxy0 false).tds ≠ ["A"] := by
  have h : start engAB setupsB proxy0 false = ⟨some "boom", [("A", 1)], [], ["A", "B"], []⟩ := by
    rw [show start engAB setupsB proxy0 false =
        startLoop engAB.pluginTypes setupsB proxy0 engAB.instances ["A", "B"]
          engAB.services engAB.workers [] from by simp [start, resolve_engAB]]
    rfl
  exact ⟨h, by rw [h]; simp⟩

/-- Witness for C1 at the concrete chain S1 (acyclicity of the fixture is
extracted from the successful concrete resolver run). -/
theorem resolveExecutionOrder_sound_of_acyclic_witness :
    ∃ out, resolveExecutionOrder gS1 = .ok out ∧
      out.Perm (gS1.map (·.id)) ∧
      (∀ p ∈ gS1, ∀ e ∈ p.wiring, instHas gS1 e.2 = true → [e.2, p.id].Sublist out) ∧
      (∀ x, instHas gS1 x = false → x ∉ out) :=
  resolveExecutionOrder_sound_of_acyclic gS1 (by decide) (resolve_ok_acyclic resolve_gS1)

/-- Witness for C3 at the concrete two-cycle X → Y → X. -/
theorem resolveExecutionOrder_cyclic_diagnostic_witness :
    ∃ msg, resolveExecutionOrder gCyc = .error msg ∧
      (∀ (types : List (String × TypeDef)) (svc : List (String × Val))
        (wk : List String) (lk : Bool) (setups : SetupFun)
        (proxyOf : String → Val) (dr : Bool),
        (start ⟨types, gCyc, svc, wk, lk⟩ setups proxyOf dr).err = some msg) ∧
      ∃ pre c h, msg = pre ++ joinArrow (h :: (c ++ [h])) ∧
        List.Chain' (edge gCyc) (h :: (c ++ [h])) :=
  resolveExecutionOrder_cyclic_diagnostic gCyc
    ⟨"X", Relation.TransGen.head (show edge gCyc "X" "Y" by decide)
      (Relation.TransGen.single (show edge gCyc "Y" "X" by decide))⟩

/-- Witness for C2 at the concrete engine where `B`'s teardown throws. -/
theorem stop_reverse_visits_witness :
    (stop engAB tdB false).err = none ∧
    (stop engAB tdB false).visits = (["A", "B"] : List String).reverse ∧
    (∀ i ∈ (["A", "B"] : List String), ∀ inst ty e,
      instGet engAB.instances i = some inst →
      inst.mode = Mode.main → tlookup engAB.pluginTypes inst.typeId = some ty →
      ty.hasTeardown = true → tdB i = .error e →
      teardownErrLog i e ∈ (stop engAB tdB false).logs) :=
  stop_reverse_visits engAB tdB ["A", "B"] resolve_engAB

/-- Witness for the amended C5 at the concrete aborting engine. -/
theorem start_abort_no_teardown_witness :
    (start engAB setupsB proxy0 false).tds = [] ∧
    ∃ k, k ≤ (["A", "B"] : List String).length ∧
      (start engAB setupsB proxy0 false).visits = (["A", "B"] : List String).take k ∧
      ((start engAB setupsB proxy0 false).err = none →
        k = (["A", "B"] : List String).length) :=
  start_abort_no_teardown engAB setupsB proxy0 ["A", "B"] resolve_engAB

theorem resolveDeps_missing (svc : List (String × Val)) (wiring : List (String × String))
    (i : String) : ∀ (pre : List String) (k : String) (post : List String),
    (∀ k2 ∈ pre, ∃ sid v, wlookup wiring k2 = some sid ∧ sid ≠ "" ∧
      slookup svc sid = some v) →
    (wlookup wiring k = none ∨ wlookup wiring k = some "") →
    resolveDeps svc wiring i (pre ++ k :: post) = .error (wiringMissingMsg i k) := by
  intro pre
  induction pre with
  | nil =>
    intro k post _ hmiss
    rcases hmiss with h | h
    · simp [resolveDeps, h]
    · simp [resolveDeps, h]
  | cons k0 pre ih =>
    intro k post hpre hmiss
    obtain ⟨sid, v, hw, hs, hv⟩ := hpre k0 (List.mem_cons_self _ _)
    have hrec := ih k post (fun k2 h2 => hpre k2 (List.mem_cons_of_mem _ h2)) hmiss
    simp [resolveDeps, hw, hs, hv, hrec]

/-- C6 amended: at start time, wiring completeness is enforced only for
main-mode instances (the first requirement whose wiring entry is absent or
empty fails with the missing-wiring error, provided the earlier requirements
resolve); a worker-mode instance is spawned without any wiring check. -/
theorem wiring_check_main_only :
    (∀ (types : List (String × TypeDef)) (setups : SetupFun)
      (proxyOf : String → Val) (g : List PluginInstance) (i : String)
      (svc : List (String × Val)) (wk : List String) inst ty reqs pre k post,
      instGet g i = some inst → inst.mode = Mode.main →
      tlookup types inst.typeId = some ty → ty.schema inst.config = true →
      ty.requirements = some reqs → reqs = pre ++ k :: post →
      (∀ k2 ∈ pre, ∃ sid v, wlookup inst.wiring k2 = some sid ∧ sid ≠ "" ∧
        slookup svc sid = some v) →
      (wlookup inst.wiring k = none ∨ wlookup inst.wiring k = some "") →
      startStep types setups proxyOf g i svc wk = (some (wiringMissingMsg i k), svc, wk)) ∧
    (∀ (types : List (String × TypeDef)) (setups : SetupFun)
      (proxyOf : String → Val) (g : List PluginInstance) (i : String)
      (svc : List (String × Val)) (wk : List String) inst ty ep,
      instGet g i = some inst → inst.mode = Mode.worker →
      tlookup types inst.typeId = some ty → ty.schema inst.config = true →
      ty.entryPoint = some ep → slookup svc i = none →
      startStep types setups proxyOf g i svc wk =
        (none, svc ++ [(i, proxyOf i)], wk ++ [i])) := by
  constructor
  · intro types setups proxyOf g i svc wk inst ty reqs pre k post
      hinst hm ht hc hr hsplit hpre hmiss
    have hdeps := resolveDeps_missing svc inst.wiring i pre k post hpre hmiss
    rw [← hsplit] at hdeps
    simp [startStep, hinst, ht, hc, hm, hr, hdeps]
  · intro types setups proxyOf g i svc wk inst ty ep hinst hm ht hc hep hfresh
    simp [startStep, hinst, ht, hc, hm, hep, registerService, hfresh]

/-- C6 counterexample: a worker-mode instance whose type declares the
requirement `logger` but whose wiring is empty starts without any
missing-wiring failure. -/
theorem startStep_worker_skips_wiring_check :
    startStep [("RW", tyReqW)] setupsNone proxy0 [instW] "W" [] [] =
      (none, [("W", 0)], ["W"]) := by
  rfl

/-- Witness for the amended C6: the same missing wiring that a worker-mode
instance gets away with fails a main-mode instance with the missing-wiring
error. -/
theorem wiring_check_main_only_witness :
    startStep [("RM", tyReqM)] setupsNone proxy0 [instM] "M" [] [] =
      (some (wiringMissingMsg "M" "logger"), [], []) ∧
    startStep [("RW", tyReqW)] setupsNone proxy0 [instW] "W" [] [] =
      (none, [("W", proxy0 "W")], ["W"]) := by
  constructor
  · exact wiring_check_main_only.1 [("RM", tyReqM)] setupsNone proxy0 [instM] "M"
      [] [] instM tyReqM ["logger"] [] "logger" [] (by rfl) (by rfl) (by rfl)
      (by rfl) (by rfl) (by rfl) (by simp) (Or.inl (by rfl))
  · exact wiring_check_main_only.2 [("RW", tyReqW)] setupsNone proxy0 [instW] "W"
      [] [] instW tyReqW "w.mjs" (by rfl) (by rfl) (by rfl) (by rfl) (by rfl)
      (by rfl)

/-- C8: in `start`, a truthy value returned by a main-mode setup is
auto-registered under the instance id with the type's config schema only when
no service is registered under that id; if setup both registered under the
instance id and returned a value, the registered service wins. The worker
host applies the same precedence to the captured vs. returned value. -/
theorem setup_return_register_precedence :
    (∀ (types : List (String × TypeDef)) (setups : SetupFun)
      (proxyOf : String → Val) (g : List PluginInstance) (i : String)
      (svc svc1 : List (String × Val)) (wk : List String) inst ty v,
      instGet g i = some inst → inst.mode = Mode.main →
      tlookup types inst.typeId = some ty → ty.schema inst.config = true →
      (∃ d0, (match ty.requirements with
        | some reqs => resolveDeps svc inst.wiring i reqs
        | none => Except.ok []) = Except.ok d0) →
      setups i svc = .ok (svc1, some v) →
      ((slookup svc1 i = none → ty.schema v = true →
        startStep types setups proxyOf g i svc wk = (none, svc1 ++ [(i, v)], wk)) ∧
       (∀ w, slookup svc1 i = some w →
        startStep types setups proxyOf g i svc wk = (none, svc1, wk)))) ∧
    (∀ reg res, bootstrapServiceImpl (some reg) res = some reg) ∧
    (∀ res, bootstrapServiceImpl none res = res) := by
  refine ⟨?_, fun reg res => rfl, fun res => rfl⟩
  intro types setups proxyOf g i svc svc1 wk inst ty v hinst hm ht hc hdeps hset
  obtain ⟨d0, hd0⟩ := hdeps
  constructor
  · intro hfresh hschema
    simp [startStep, hinst, ht, hc, hm, hd0, hset, registerService, hfresh, hschema]
  · intro w hdup
    simp [startStep, hinst, ht, hc, hm, hd0, hset, hdup]

/-- Witness for C8: concrete auto-registration (`A` returns `1` into an empty
registry) and concrete registered-wins precedence (a service already under the
id survives and the returned value is dropped), plus the worker-host rule. -/
theorem setup_return_register_precedence_witness :
    startStep [("L", tyPlain)] setupsB proxy0 [instA] "A" [] [] =
      (none, [("A", 1)], []) ∧
    startStep [("L", tyPlain)] (fun _ svc => .ok (("A", 7) :: svc, some 1)) proxy0
      [instA] "A" [] [] = (none, [("A", 7)], []) ∧
    bootstrapServiceImpl (some 7) (some 1) = some 7 ∧
    bootstrapServiceImpl none (some 1) = some 1 := by
  refine ⟨?_, ?_, ?_, ?_⟩
  · exact ((setup_return_register_precedence.1 [("L", tyPlain)] setupsB proxy0
      [instA] "A" [] [] [] instA tyPlain 1 (by rfl) (by rfl) (by rfl) (by rfl)
      ⟨[], by rfl⟩ (by rfl)).1 (by rfl) (by rfl))
  · exact ((setup_return_register_precedence.1 [("L", tyPlain)]
      (fun _ svc => .ok (("A", 7) :: svc, some 1)) proxy0
      [instA] "A" [] [("A", 7)] [] instA tyPlain 1 (by rfl) (by rfl) (by rfl)
      (by rfl) ⟨[], by rfl⟩ (by rfl)).2 7 (by rfl))
  · exact setup_return_register_precedence.2.1 7 (some 1)
  · exact setup_return_register_precedence.2.2 (some 1)

/-- C9: the definitions lock is monotone: locking is idempotent and never
cleared by any registration-API operation, `registerDefinition` always fails
on a locked engine, and `registerPlugin` is still accepted after the lock. -/
theorem lock_monotone :
    (∀ st, (lockDefinitions st).locked = true) ∧
    (∀ st, lockDefinitions (lockDefinitions st) = lockDefinitions st) ∧
    (∀ st d, st.locked = true →
      registerDefinition st d = .error (registryLockedMsg d.id)) ∧
    (∀ st ops, st.locked = true → (applyOps st ops).locked = true) ∧
    (∀ st p ty, tlookup st.pluginTypes p.typeId = some ty →
      instGet st.instances p.id = none →
      registerPlugin (lockDefinitions st) p =
        .ok ⟨st.pluginTypes, st.instances ++ [p], st.services, st.workers, true⟩) := by
  refine ⟨fun st => rfl, fun st => rfl, ?_, ?_, ?_⟩
  · intro st d h
    simp [registerDefinition, h]
  · intro st ops
    induction ops generalizing st with
    | nil => intro h; exact h
    | cons op rest ih =>
      intro h
      refine ih _ ?_
      cases op with
      | regDef d =>
        simp [applyOp, registerDefinition, h]
      | regPlugin p =>
        simp only [applyOp, registerPlugin]
        rcases h1 : (tlookup st.pluginTypes p.typeId).isNone with _ | _ <;>
          rcases h2 : (instGet st.instances p.id).isSome with _ | _ <;>
          simp [h1, h2, h]
      | lock => exact rfl
  · intro st p ty ht hi
    simp [registerPlugin, lockDefinitions, ht, hi]

/-- Witness for C9 at a concrete engine. -/
theorem lock_monotone_witness :
    (lockDefinitions engAB).locked = true ∧
    lockDefinitions (lockDefinitions engAB) = lockDefinitions engAB ∧
    registerDefinition (lockDefinitions engAB) tyReqM =
      .error (registryLockedMsg "RM") ∧
    (applyOps (lockDefinitions engAB) [EngineOp.regDef tyReqM,
      EngineOp.regPlugin instM, EngineOp.lock]).locked = true ∧
    registerPlugin (lockDefinitions engAB) instW =
      .error ("Unknown Plugin Type: " ++ sq ++ "RW" ++ sq ++
        ". Did you forget to register the definition?") ∧
    registerPlugin (lockDefinitions engAB) ⟨"C", "L", 0, [], Mode.main⟩ =
      .ok ⟨engAB.pluginTypes, engAB.instances ++ [⟨"C", "L", 0, [], Mode.main⟩],
        engAB.services, engAB.workers, true⟩ := by
  refine ⟨lock_monotone.1 engAB, lock_monotone.2.1 engAB, ?_, ?_, ?_, ?_⟩
  · have := lock_monotone.2.2.1 (lockDefinitions engAB) tyReqM (by rfl)
    simpa [tyReqM] using this
  · exact lock_monotone.2.2.2.1 (lockDefinitions engAB)
      [EngineOp.regDef tyReqM, EngineOp.regPlugin instM, EngineOp.lock] (by rfl)
  · rfl
  · exact lock_monotone.2.2.2.2 engAB ⟨"C", "L", 0, [], Mode.main⟩ tyPlain
      (by rfl) (by rfl)

/-- C10: `PluginContext.registerService` mutates the map only on success, and
the duplicate-id check precedes contract validation, so registering an
existing id always throws the duplicate error without ever invoking the
contract's parse. -/
theorem registerService_atomic_duplicate_first :
    (∀ (svc : List (String × Val)) (i : String) (schema : Schema) (impl : Val)
      (validate : Bool) err,
      (registerService svc i schema impl validate).2.1 = some err →
      (registerService svc i schema impl validate).1 = svc) ∧
    (∀ (svc : List (String × Val)) (i : String) (schema : Schema) (impl : Val)
      (validate : Bool) w, slookup svc i = some w →
      registerService svc i schema impl validate =
        (svc, some (RegErr.duplicate i), false)) := by
  constructor
  · intro svc i schema impl validate err h
    unfold registerService at h ⊢
    by_cases h1 : (slookup svc i).isSome
    · simp [h1]
    · simp only [h1] at h ⊢
      cases validate with
      | false => simp at h
      | true =>
        cases h2 : schema impl with
        | false => simp [h2]
        | true => simp [h2] at h
  · intro svc i schema impl validate w h
    have h1 : (slookup svc i).isSome = true := by rw [h]; rfl
    simp [registerService, h1]

/-- Witness for C10: a duplicate registration fails atomically with the
duplicate error, reporting that parse was never invoked. -/
theorem registerService_atomic_duplicate_first_witness :
    (registerService [("A", 1)] "A" (fun _ => false) 2 true).1 = [("A", 1)] ∧
    registerService [("A", 1)] "A" (fun _ => false) 2 true =
      ([("A", 1)], some (RegErr.duplicate "A"), false) := by
  constructor
  · exact registerService_atomic_duplicate_first.1 [("A", 1)] "A" (fun _ => false)
      2 true (RegErr.duplicate "A") (by rfl)
  · exact registerService_atomic_duplicate_first.2 [("A", 1)] "A" (fun _ => false)
      2 true 1 (by rfl)

/-- C4 amended: every downlink call arms a rejection timer for the configured
timeout whose firing removes the pending entry (no leak) and rejects with the
timeout error naming the method and the delay, but an uplink call records its
pending entry with NO timer at all, so an unanswered uplink call can never
time out. -/
theorem rpc_timeout_downlink_only :
    (∀ (timeoutMs : Nat) (pending : List PendingEntry) (fresh method : String),
      rpcClientCall timeoutMs pending fresh method =
        (pending ++ [⟨fresh, method, true, timeoutMs⟩], RpcMsg.call fresh method)) ∧
    (∀ (timeoutMs : Nat) (pending : List PendingEntry) (fresh method : String),
      (∀ e ∈ pending, e.id ≠ fresh) →
      fireTimer (rpcClientCall timeoutMs pending fresh method).1 fresh =
        (pending.filter (fun e => e.id != fresh),
          some (rpcTimeoutMsg method timeoutMs)) ∧
      (∀ e2 ∈ (fireTimer (rpcClientCall timeoutMs pending fresh method).1 fresh).1,
        e2.id ≠ fresh)) ∧
    (∀ (pending : List PendingEntry) (fresh serviceName method : String),
      uplinkClientCall pending fresh serviceName method =
        (pending ++ [⟨fresh, method, false, 0⟩],
          RpcMsg.uplinkCall fresh serviceName method) ∧
      ∀ e ∈ (uplinkClientCall pending fresh serviceName method).1,
        e ∉ pending → e.hasTimer = false) := by
  refine ⟨fun _ _ _ _ => rfl, ?_, ?_⟩
  · intro timeoutMs pending fresh method hfresh
    have hnone : pending.find? (fun e => e.id == fresh) = none :=
      List.find?_eq_none.mpr (fun e he => by simpa using hfresh e he)
    have hstep : fireTimer
        (pending ++ [(⟨fresh, method, true, timeoutMs⟩ : PendingEntry)]) fresh =
        (pending.filter (fun e => e.id != fresh),
          some (rpcTimeoutMsg method timeoutMs)) := by
      simp [fireTimer, hnone, List.filter_append]
    refine ⟨hstep, ?_⟩
    intro e2 h2
    have h3 : e2 ∈ (fireTimer
        (pending ++ [(⟨fresh, method, true, timeoutMs⟩ : PendingEntry)])
        fresh).1 := h2
    rw [hstep] at h3
    have := List.of_mem_filter h3
    simpa using this
  · intro pending fresh serviceName method
    refine ⟨rfl, ?_⟩
    intro e he hnot
    rcases List.mem_append.mp he with h | h
    · exact absurd h hnot
    · simp only [List.mem_singleton] at h
      rw [h]

/-- C4 counterexample: an uplink dependency call records its pending entry
without any timer; nothing can fire for it, so the promise never rejects on
timeout and the entry stays in the map. -/
theorem uplink_no_timeout_counterexample :
    uplinkClientCall [] "i1" "logger" "info" =
      ([⟨"i1", "info", false, 0⟩], RpcMsg.uplinkCall "i1" "logger" "info") ∧
    (uplinkClientCall [] "i1" "logger" "info").1 ≠
      [⟨"i1", "info", true, DEFAULT_RPC_TIMEOUT_MS⟩] ∧
    fireTimer (uplinkClientCall [] "i1" "logger" "info").1 "i1" =
      ([⟨"i1", "info", false, 0⟩], none) := by
  refine ⟨rfl, by decide, rfl⟩

/-- Witness for the amended C4: a concrete downlink call times out with the
default delay, naming the method, and leaves no pending entry behind. -/
theorem rpc_timeout_downlink_only_witness :
    rpcClientCall DEFAULT_RPC_TIMEOUT_MS [] "i1" "query" =
      ([⟨"i1", "query", true, DEFAULT_RPC_TIMEOUT_MS⟩], RpcMsg.call "i1" "query") ∧
    fireTimer (rpcClientCall DEFAULT_RPC_TIMEOUT_MS [] "i1" "query").1 "i1" =
      ([], some (rpcTimeoutMsg "query" DEFAULT_RPC_TIMEOUT_MS)) := by
  constructor
  · exact rpc_timeout_downlink_only.1 DEFAULT_RPC_TIMEOUT_MS [] "i1" "query"
  · exact (rpc_timeout_downlink_only.2.1 DEFAULT_RPC_TIMEOUT_MS [] "i1" "query"
      (by simp)).1

/-- C7 amended: the catch branches put only `err.message` (a plain string) on
the wire, and the receiving side reconstructs `new Error(message)`: the
message survives, the name degrades to `Error` and the remote stack is lost.
The structured `serializeError`/`deserializeError` helpers exist in rpc.ts
but no message path uses them. -/
theorem error_frames_carry_message_only :
    (∀ callId err, rpcServerErrorFrame callId err = RpcMsg.error callId err.message) ∧
    (∀ callId err, uplinkServerErrorFrame callId err =
      RpcMsg.uplinkError callId err.message) ∧
    (∀ m, newJsError m = ⟨"Error", m, none⟩) ∧
    (∀ callId err, newJsError (errorPayload (rpcServerErrorFrame callId err)) =
      ⟨"Error", err.message, none⟩) ∧
    (∀ callId err, newJsError (errorPayload (uplinkServerErrorFrame callId err)) =
      ⟨"Error", err.message, none⟩) ∧
    (∀ err, deserializeError (serializeError err) =
      ⟨err.name, if err.message = "" then "Unknown Error" else err.message,
        err.stack⟩) :=
  ⟨fun _ _ => rfl, fun _ _ => rfl, fun _ => rfl, fun _ _ => rfl, fun _ _ => rfl,
    fun _ => rfl⟩

/-- C7 counterexample: a worker-side `TypeError` with a stack trace crosses
the downlink as the bare string `boom`; the host reconstructs an error whose
name is `Error` and whose remote stack is gone. -/
theorem error_frame_counterexample :
    rpcServerErrorFrame "c1" ⟨"TypeError", "boom", some "trace"⟩ =
      RpcMsg.error "c1" "boom" ∧
    newJsError (errorPayload (rpcServerErrorFrame "c1"
      ⟨"TypeError", "boom", some "trace"⟩)) = ⟨"Error", "boom", none⟩ ∧
    (⟨"Error", "boom", none⟩ : JsError) ≠ ⟨"TypeError", "boom", some "trace"⟩ ∧
    (newJsError (errorPayload (rpcServerErrorFrame "c1"
      ⟨"TypeError", "boom", some "trace"⟩))).name ≠ "TypeError" := by
  refine ⟨rfl, rfl, by decide, by decide⟩
end EazyCore
